import Mathlib

/-!
Verification of the interactive log-viewer core (`log_viewer/tui.go`).

The Go source is shallowly embedded: Go strings are Lean `String`s (lists of
runes, matching Go's `[]rune` view; byte-level slicing is modelled at rune
level and noted where it occurs), Go `int` is `Int`, fallible parsing returns
`Option`, and the `map[string]interface{}` field maps of parsed logs are
association lists with unique keys (Go map iteration order is irrelevant to
every function modelled here: each one either searches the whole map or looks
up fixed keys).  Terminal styling (lipgloss) is modelled by a `Style`
structure carrying exactly the layout attributes the source sets; its
`render` keeps the text content verbatim, adds the configured padding spaces
and blank lines, pads to the configured height, and adds horizontal border
lines.  ANSI color codes, width-wrapping and the vertical border glyphs are
dropped from the model: they decorate but never remove content.
-/

namespace LogViewer

/-! ## Character-list utilities (substring and line structure) -/

/-- Model of Go `strings.Contains` at the character-list level:
`isPrefB t s` is true when `t` is a prefix of `s`. -/
def isPrefB : List Char → List Char → Bool
  | [], _ => true
  | _ :: _, [] => false
  | a :: as, b :: bs => a = b && isPrefB as bs

/-- `segInB t s` is true when `t` occurs contiguously inside `s`. -/
def segInB : List Char → List Char → Bool
  | t, [] => isPrefB t []
  | t, c :: cs => isPrefB t (c :: cs) || segInB t cs

/-- Model of Go `strings.Contains s sub`. -/
def containsSubstr (s sub : String) : Bool :=
  segInB sub.toList s.toList

/-- Split a character list at newline characters; always returns at least one
(possibly empty) line, and no line contains a newline. -/
def splitLinesC : List Char → List (List Char)
  | [] => [[]]
  | c :: cs =>
    match splitLinesC cs with
    | [] => [[]]
    | l :: ls => if c = '\n' then [] :: l :: ls else (c :: l) :: ls

/-- Join lines with newline characters (inverse of `splitLinesC`). -/
def joinLinesC : List (List Char) → List Char
  | [] => []
  | [l] => l
  | l :: ls => l ++ '\n' :: joinLinesC ls

/-- Lines of a string. -/
def strLines (s : String) : List String :=
  (splitLinesC s.toList).map fun l => String.mk l

/-- Number of terminal lines a string occupies. -/
def linesCount (s : String) : Nat :=
  s.toList.count '\n' + 1

/-- ASCII-range model of Go `strings.ToLower` (the log fields and queries of
interest are ASCII; Go lowers the full Unicode range). -/
def strToLower (s : String) : String :=
  String.mk (s.toList.map Char.toLower)

/-- Model of Go `strings.TrimSpace` (ASCII whitespace). -/
def trimSpace (s : String) : String :=
  String.mk ((s.toList.dropWhile Char.isWhitespace).reverse.dropWhile Char.isWhitespace).reverse

/-! ## The loosely typed field values (`interface{}` after `json.Unmarshal`) -/

/-- A Go `interface{}` value produced by `encoding/json`: `nil`, `bool`,
`float64` (kept as its decimal token; Go re-renders integral floats exactly
as their integer token, which is the only numeric shape the log domain
uses), `string`, `[]interface{}` or `map[string]interface{}`. -/
inductive GoValue where
  | vNull
  | vBool (b : Bool)
  | vNum (tok : String)
  | vStr (s : String)
  | vArr (elems : List GoValue)
  | vObj (pairs : List (String × GoValue))

mutual
/-- Model of Go `fmt.Sprint` / `%v` on `interface{}` values.  Object pairs
are rendered in stored order; values built by the JSON parser below store
their pairs key-sorted and duplicate-free, exactly the order in which Go
prints a `map[string]interface{}`. -/
def goSprint : GoValue → String
  | .vNull => "<nil>"
  | .vBool b => if b then "true" else "false"
  | .vNum tok => tok
  | .vStr s => s
  | .vArr es => "[" ++ goSprintList es ++ "]"
  | .vObj ps => "map[" ++ goSprintPairs ps ++ "]"

/-- Space-separated `fmt.Sprint` of slice elements. -/
def goSprintList : List GoValue → String
  | [] => ""
  | [e] => goSprint e
  | e :: es => goSprint e ++ " " ++ goSprintList es

/-- Space-separated `k:v` rendering of map entries. -/
def goSprintPairs : List (String × GoValue) → String
  | [] => ""
  | [(k, v)] => k ++ ":" ++ goSprint v
  | (k, v) :: ps => k ++ ":" ++ goSprint v ++ " " ++ goSprintPairs ps
end

/-! ## The data model (`log_parser.go`) -/

/-- `ParsedLog` from `log_parser.go`: raw text, parsed fields, 1-based line
number. -/
structure ParsedLog where
  RawLog : String
  Fields : List (String × GoValue)
  LineNumber : Int

/-- Default record used to totalize Go's panicking slice indexing in the
embedding of `Model.View` (reachable only when `selectedLogIndex` is out of
range, where the Go program panics). -/
def defaultLog : ParsedLog := { RawLog := "", Fields := [], LineNumber := 0 }

/-! ## Filter (`filterLogs`, tui.go:84-108) -/

/-- The per-record match test inside the loop of `filterLogs`: raw text
contains the lowered query, or some field key or `fmt.Sprint`ed field value
does. -/
def logMatches (lowerQuery : String) (log : ParsedLog) : Bool :=
  containsSubstr (strToLower log.RawLog) lowerQuery ||
  log.Fields.any fun kv =>
    containsSubstr (strToLower kv.1) lowerQuery ||
    containsSubstr (strToLower (goSprint kv.2)) lowerQuery

/-- Embedding of `filterLogs` (tui.go:84-108): empty query returns the input;
otherwise keep exactly the records matching the lowered query, in order. -/
def filterLogs (logs : List ParsedLog) (query : String) : List ParsedLog :=
  if query = "" then logs
  else logs.filter (logMatches (strToLower query))

/-! ## The model and the transition function (`Model`, `Model.Update`) -/

/-- Embedding of the `Model` struct (tui.go:73-82). -/
structure Model where
  logs : List ParsedLog
  filteredLogs : List ParsedLog
  selectedLogIndex : Int
  searchMode : Bool
  jumpMode : Bool
  searchQuery : String
  width : Int
  height : Int

/-- bubbletea key kinds used by `Model.Update`. -/
inductive KeyType where
  | keyUp | keyDown | keyEnter | keyEsc | keyBackspace | keyRunes | keyCtrlC
  deriving DecidableEq, Repr

/-- A bubbletea `tea.KeyMsg`: its kind and, for rune keys, the runes. -/
structure KeyMsg where
  type : KeyType
  runes : String
  deriving DecidableEq, Repr

/-- Model of `tea.KeyMsg.String()` for the key kinds above. -/
def KeyMsg.string (k : KeyMsg) : String :=
  match k.type with
  | .keyUp => "up"
  | .keyDown => "down"
  | .keyEnter => "enter"
  | .keyEsc => "esc"
  | .keyBackspace => "backspace"
  | .keyCtrlC => "ctrl+c"
  | .keyRunes => k.runes

/-- The messages `Model.Update` inspects: key events and resize events. -/
inductive Msg where
  | key (k : KeyMsg)
  | windowSize (width height : Int)
  deriving DecidableEq, Repr

/-- The only command the update function ever emits. -/
inductive Cmd where
  | quit
  deriving DecidableEq, Repr

/-- Model of Go `strconv.Atoi` (sign and decimal digits; overflow, which
cannot occur for on-screen line numbers, is not modelled). -/
def atoi (s : String) : Option Int :=
  match s.toList with
  | [] => none
  | c :: cs =>
    let (neg, ds) :=
      if c = '-' then (true, cs)
      else if c = '+' then (false, cs)
      else (false, c :: cs)
    if ds.isEmpty then none
    else if ds.all Char.isDigit then
      let n : Nat := ds.foldl (fun acc d => acc * 10 + (d.toNat - '0'.toNat)) 0
      some (if neg then -(n : Int) else (n : Int))
    else none

/-- Embedding of `Model.Update` (tui.go:114-173).  The switch is driven by
`msg.String()` exactly as in the source; the backspace model drops the last
rune (the source drops the last byte, identical on ASCII input). -/
def Model.Update (m : Model) (msg : Msg) : Model × Option Cmd :=
  match msg with
  | .windowSize w h => ({ m with width := w, height := h }, none)
  | .key k =>
    match k.string with
    | "ctrl+c" => (m, some Cmd.quit)
    | "q" => (m, some Cmd.quit)
    | "up" | "k" =>
      (if 0 < m.selectedLogIndex then
        { m with selectedLogIndex := m.selectedLogIndex - 1 } else m, none)
    | "down" | "j" =>
      (if m.selectedLogIndex < (m.filteredLogs.length : Int) - 1 then
        { m with selectedLogIndex := m.selectedLogIndex + 1 } else m, none)
    | "/" => ({ m with jumpMode := true, searchMode := false, searchQuery := "" }, none)
    | "s" => ({ m with searchMode := true, jumpMode := false, searchQuery := "" }, none)
    | "esc" => ({ m with searchMode := false, jumpMode := false, searchQuery := "" }, none)
    | "enter" =>
      if m.jumpMode then
        let m' :=
          match atoi m.searchQuery with
          | some lineNum =>
            let targetIdx := lineNum - 1
            if 0 ≤ targetIdx ∧ targetIdx < (m.logs.length : Int) then
              { m with selectedLogIndex := targetIdx }
            else m
          | none => m
        ({ m' with jumpMode := false, searchQuery := "" }, none)
      else if m.searchMode then
        let m' := { m with filteredLogs := filterLogs m.logs m.searchQuery }
        let m'' := if 0 < m'.filteredLogs.length then { m' with selectedLogIndex := 0 } else m'
        ({ m'' with searchMode := false, searchQuery := "" }, none)
      else (m, none)
    | _ =>
      if m.searchMode || m.jumpMode then
        if k.type = KeyType.keyBackspace ∧ 0 < m.searchQuery.length then
          ({ m with searchQuery := m.searchQuery.dropRight 1 }, none)
        else if k.type = KeyType.keyRunes then
          ({ m with searchQuery := m.searchQuery ++ k.runes }, none)
        else (m, none)
      else (m, none)

/-- The state reached after one key/resize event (discarding the command). -/
def stepMsg (m : Model) (msg : Msg) : Model :=
  (m.Update msg).1

/-! ## Substring facts -/

theorem prefB_iff (t s : List Char) : isPrefB t s = true ↔ t <+: s := by
  induction t generalizing s with
  | nil => simp [isPrefB]
  | cons a as ih =>
    cases s with
    | nil => simp [isPrefB]
    | cons b bs => simp [isPrefB, ih, List.cons_prefix_cons, Bool.and_eq_true, decide_eq_true_iff]

theorem segInB_iff (t s : List Char) : segInB t s = true ↔ t <:+: s := by
  induction s with
  | nil => simp [segInB, prefB_iff]
  | cons c cs ih => simp [segInB, prefB_iff, ih, List.infix_cons_iff]

theorem containsSubstr_empty (s : String) : containsSubstr s "" = true := by
  simp [containsSubstr, segInB_iff]

/-! ## C3: the filter contract -/

/-- C3: `filter(R, "")` is `R`; `filter(R, q)` is an order-preserving
subsequence of `R`; and a record is in the result exactly when it is in `R`
and its raw text, some field key, or some field value rendered by
`fmt.Sprint` case-insensitively contains the query. -/
theorem c3_filter_contract (R : List ParsedLog) (q : String) :
    filterLogs R "" = R ∧
    List.Sublist (filterLogs R q) R ∧
    (∀ r, r ∈ filterLogs R q ↔ r ∈ R ∧
      (containsSubstr (strToLower r.RawLog) (strToLower q) = true ∨
       ∃ kv ∈ r.Fields,
         containsSubstr (strToLower kv.1) (strToLower q) = true ∨
         containsSubstr (strToLower (goSprint kv.2)) (strToLower q) = true)) := by
  refine ⟨by simp [filterLogs], ?_, ?_⟩
  · by_cases hq : q = ""
    · simp [filterLogs, hq]
    · simp [filterLogs, hq, List.filter_sublist]
  · intro r
    by_cases hq : q = ""
    · subst hq
      have hlow : strToLower "" = "" := rfl
      simp [filterLogs, hlow, containsSubstr_empty]
    · simp [filterLogs, hq, List.mem_filter, logMatches, List.any_eq_true]

/-! ## Concrete events and step lemmas -/

/-- The up-arrow key event. -/
def upMsg : Msg := Msg.key ⟨KeyType.keyUp, ""⟩

/-- The down-arrow key event. -/
def downMsg : Msg := Msg.key ⟨KeyType.keyDown, ""⟩

/-- The enter key event. -/
def enterMsg : Msg := Msg.key ⟨KeyType.keyEnter, ""⟩

/-- A printable-character key event carrying `s`. -/
def runesMsg (s : String) : Msg := Msg.key ⟨KeyType.keyRunes, s⟩

theorem stepMsg_up (m : Model) :
    stepMsg m upMsg =
      if 0 < m.selectedLogIndex then
        { m with selectedLogIndex := m.selectedLogIndex - 1 } else m := rfl

theorem stepMsg_down (m : Model) :
    stepMsg m downMsg =
      if m.selectedLogIndex < (m.filteredLogs.length : Int) - 1 then
        { m with selectedLogIndex := m.selectedLogIndex + 1 } else m := rfl

/-! ## C7: down-then-up navigation -/

/-- A two-record log set shared by the concrete scenarios below. -/
def logA : ParsedLog := { RawLog := "log1", Fields := [], LineNumber := 1 }

/-- Second record of the shared two-record set. -/
def logB : ParsedLog := { RawLog := "log2", Fields := [], LineNumber := 2 }

/-- Normal-mode state on two records with the last record selected. -/
def c7model : Model :=
  { logs := [logA, logB], filteredLogs := [logA, logB], selectedLogIndex := 1,
    searchMode := false, jumpMode := false, searchQuery := "", width := 100, height := 40 }

/-- C7 counterexample: in Normal mode on a two-record set with the last
record selected, pressing down then up moves the selection to index 0, not
back to the original index 1. -/
theorem c7_counterexample :
    c7model.searchMode = false ∧ c7model.jumpMode = false ∧
    c7model.filteredLogs.length = 2 ∧ c7model.selectedLogIndex = 1 ∧
    (stepMsg (stepMsg c7model downMsg) upMsg).selectedLogIndex = 0 := by
  decide

/-- C7 (amended): in Normal mode with non-empty `visibleRecords`, down then
up returns `selectedIndex` to its original value whenever the selection is
not on the last record; up at index 0 stays at 0 and down at the last index
stays at the last index; but down-then-up from the last index of a
multi-record list ends one above the original index. -/
theorem c7_nav_roundtrip (m : Model) (hs : m.searchMode = false)
    (hj : m.jumpMode = false) (hne : 0 < m.filteredLogs.length)
    (hidx : 0 ≤ m.selectedLogIndex) :
    (m.selectedLogIndex < (m.filteredLogs.length : Int) - 1 →
      (stepMsg (stepMsg m downMsg) upMsg).selectedLogIndex = m.selectedLogIndex) ∧
    (m.selectedLogIndex = 0 → (stepMsg m upMsg).selectedLogIndex = 0) ∧
    (m.selectedLogIndex = (m.filteredLogs.length : Int) - 1 →
      (stepMsg m downMsg).selectedLogIndex = m.selectedLogIndex) ∧
    (0 < m.selectedLogIndex → m.selectedLogIndex = (m.filteredLogs.length : Int) - 1 →
      (stepMsg (stepMsg m downMsg) upMsg).selectedLogIndex = m.selectedLogIndex - 1) := by
  rw [stepMsg_down]
  refine ⟨?_, ?_, ?_, ?_⟩
  · intro hlt
    rw [if_pos hlt, stepMsg_up]
    split <;> simp_all <;> omega
  · intro h0
    rw [stepMsg_up]
    split <;> simp_all <;> omega
  · intro hlast
    split <;> simp_all <;> omega
  · intro hpos hlast
    rw [if_neg (by omega), stepMsg_up, if_pos (by omega)]

/-- Normal-mode state on two records with the first record selected. -/
def c7wmodel : Model :=
  { logs := [logA, logB], filteredLogs := [logA, logB], selectedLogIndex := 0,
    searchMode := false, jumpMode := false, searchQuery := "", width := 100, height := 40 }

/-- Witness for the amended C7 statement at a concrete state. -/
theorem c7_nav_roundtrip_witness :
    (stepMsg (stepMsg c7wmodel downMsg) upMsg).selectedLogIndex = c7wmodel.selectedLogIndex ∧
    (stepMsg c7wmodel upMsg).selectedLogIndex = 0 :=
  ⟨(c7_nav_roundtrip c7wmodel rfl rfl (by decide) (by decide)).1 (by decide),
   (c7_nav_roundtrip c7wmodel rfl rfl (by decide) (by decide)).2.1 rfl⟩

/-! ## C8: frame conditions of the transition function -/

/-- C8: no transition changes `allRecords`, and the only transition that can
change `visibleRecords` is the enter key pressed while in search mode (and
not in jump mode); in particular entering search mode with `s` and then jump
mode with `/` leaves `visibleRecords` unchanged. -/
theorem c8_frame :
    (∀ (m : Model) (msg : Msg), (stepMsg m msg).logs = m.logs) ∧
    (∀ (m : Model) (msg : Msg),
      (stepMsg m msg).filteredLogs = m.filteredLogs ∨
      (m.searchMode = true ∧ m.jumpMode = false ∧
        ∃ k, msg = Msg.key k ∧ k.string = "enter")) ∧
    (∀ m : Model,
      (stepMsg (stepMsg m (runesMsg "s")) (runesMsg "/")).filteredLogs = m.filteredLogs) := by
  refine ⟨?_, ?_, fun m => rfl⟩
  · intro m msg
    cases msg with
    | windowSize w h => rfl
    | key k =>
      simp only [stepMsg, Model.Update]
      split <;> (repeat' split) <;> rfl
  · intro m msg
    cases msg with
    | windowSize w h => exact Or.inl rfl
    | key k =>
      simp only [stepMsg, Model.Update]
      split
      case _ => exact Or.inl rfl
      case _ => exact Or.inl rfl
      case _ => exact Or.inl (by split <;> rfl)
      case _ => exact Or.inl (by split <;> rfl)
      case _ => exact Or.inl (by split <;> rfl)
      case _ => exact Or.inl (by split <;> rfl)
      case _ => exact Or.inl rfl
      case _ => exact Or.inl rfl
      case _ => exact Or.inl rfl
      case _ heq =>
        by_cases hj : m.jumpMode = true
        · refine Or.inl ?_
          simp only [hj, if_true]
          repeat' split
          all_goals rfl
        · by_cases hsm : m.searchMode = true
          · exact Or.inr ⟨hsm, by simpa using hj, k, rfl, heq⟩
          · simp only [hj, hsm, if_false]
            exact Or.inl rfl
      case _ =>
        refine Or.inl ?_
        repeat' split
        all_goals rfl

/-! ## C1: committing a jump -/

/-- Jump-mode state whose `visibleRecords` is the strict subsequence
`[logB]` (as left by a committed search), with pending input "2". -/
def c1m : Model :=
  { logs := [logA, logB], filteredLogs := [logB], selectedLogIndex := 0,
    searchMode := false, jumpMode := true, searchQuery := "2", width := 100, height := 40 }

/-- C1 counterexample: committing the jump "2" from `c1m` must, per the
claim, select the position of line number 2 inside `visibleRecords`, which
is position 0; the code instead sets `selectedIndex` to 1 (the position in
`allRecords`), which is not even a valid index into `visibleRecords`. -/
theorem c1_jump_counterexample :
    c1m.jumpMode = true ∧ c1m.searchQuery = "2" ∧
    c1m.filteredLogs.map ParsedLog.LineNumber = [2] ∧
    (stepMsg c1m enterMsg).selectedLogIndex = 1 ∧
    ((1 : Int) = 0 → False) := by
  refine ⟨rfl, rfl, rfl, rfl, by decide⟩

/-- C1 (amended): on enter in jump mode the input buffer is parsed with
`strconv.Atoi`; if it yields `n` with `1 <= n <= len(allRecords)` then
`selectedIndex` is set to `n - 1`, the 0-based position in `allRecords`,
without consulting `visibleRecords`; otherwise `selectedIndex` is
unchanged.  In every case the buffer is cleared, jump mode is left, and
`allRecords`/`visibleRecords` are untouched. -/
theorem c1_jump_amended (m : Model) (hj : m.jumpMode = true) :
    (stepMsg m enterMsg).jumpMode = false ∧
    (stepMsg m enterMsg).searchQuery = "" ∧
    (stepMsg m enterMsg).logs = m.logs ∧
    (stepMsg m enterMsg).filteredLogs = m.filteredLogs ∧
    (stepMsg m enterMsg).selectedLogIndex =
      (match atoi m.searchQuery with
       | some n => if 0 ≤ n - 1 ∧ n - 1 < (m.logs.length : Int) then n - 1 else m.selectedLogIndex
       | none => m.selectedLogIndex) := by
  simp only [stepMsg, Model.Update, enterMsg, KeyMsg.string, hj, if_true]
  refine ⟨by trivial, by trivial, ?_, ?_, ?_⟩ <;> (repeat' split) <;> rfl

/-- Jump-mode state on the unfiltered two-record set with pending input
"2", matching the spec scenario. -/
def c1wm : Model :=
  { logs := [logA, logB], filteredLogs := [logA, logB], selectedLogIndex := 0,
    searchMode := false, jumpMode := true, searchQuery := "2", width := 100, height := 40 }

/-- Witness for the amended C1 statement: jump "2" on the unfiltered
two-record set selects index 1, the record with line number 2, clears the
buffer and returns to Normal mode. -/
theorem c1_jump_amended_witness :
    (stepMsg c1wm enterMsg).selectedLogIndex = 1 ∧
    (stepMsg c1wm enterMsg).jumpMode = false ∧
    (stepMsg c1wm enterMsg).searchQuery = "" ∧
    (c1wm.filteredLogs.getD 1 defaultLog).LineNumber = 2 := by
  have h := c1_jump_amended c1wm rfl
  exact ⟨by rw [h.2.2.2.2]; decide, h.1, h.2.1, rfl⟩

/-! ## C2: the selection-bound invariant -/

/-- Initial state on the two-record set, as built by `main`. -/
def c2m0 : Model :=
  { logs := [logA, logB], filteredLogs := [logA, logB], selectedLogIndex := 0,
    searchMode := false, jumpMode := false, searchQuery := "", width := 100, height := 40 }

/-- C2 violation: from the initial two-record state, search for "1"
(keeping only `logA`), then jump to line 2.  The jump bound is checked
against `len(allRecords)` instead of `len(visibleRecords)`, so the reached
state has `selectedIndex = 1` with only one visible record — the invariant
`0 <= selectedIndex < len(visibleRecords)` fails on a reachable state, and
`View`'s indexing `filteredLogs[selectedLogIndex]` panics there. -/
theorem c2_invariant_violation :
    (stepMsg (stepMsg (stepMsg (stepMsg (stepMsg (stepMsg c2m0
        (runesMsg "s")) (runesMsg "1")) enterMsg) (runesMsg "/")) (runesMsg "2")) enterMsg).filteredLogs.length = 1 ∧
    (stepMsg (stepMsg (stepMsg (stepMsg (stepMsg (stepMsg c2m0
        (runesMsg "s")) (runesMsg "1")) enterMsg) (runesMsg "/")) (runesMsg "2")) enterMsg).selectedLogIndex = 1 ∧
    ¬((stepMsg (stepMsg (stepMsg (stepMsg (stepMsg (stepMsg c2m0
        (runesMsg "s")) (runesMsg "1")) enterMsg) (runesMsg "/")) (runesMsg "2")) enterMsg).selectedLogIndex <
      ((stepMsg (stepMsg (stepMsg (stepMsg (stepMsg (stepMsg c2m0
        (runesMsg "s")) (runesMsg "1")) enterMsg) (runesMsg "/")) (runesMsg "2")) enterMsg).filteredLogs.length : Int)) := by
  decide

/-! ## Lipgloss styles (layout attributes only; colors are dropped) -/

/-- The layout attributes a lipgloss style may set in `tui.go`.  `height`
is a minimum height in lines (lipgloss pads, never truncates); borders are
modelled as horizontal rule lines (the vertical border glyphs and ANSI
colors never remove content and are dropped). -/
structure Style where
  padTop : Nat := 0
  padBottom : Nat := 0
  padLeft : Nat := 0
  padRight : Nat := 0
  marginTop : Nat := 0
  marginBottom : Nat := 0
  height : Int := 0
  borderTop : Bool := false
  borderBottom : Bool := false

/-- The horizontal rule standing for a lipgloss border edge. -/
def borderLine : List Char := ['-', '-', '-']

/-- The list of output lines of a styled render: the input split into
lines, padding applied, blank lines up to the height, then border and
margin lines. -/
def renderLines (st : Style) (s : String) : List (List Char) :=
  let ls := splitLinesC s.toList
  let ls := List.replicate st.padTop [] ++ ls ++ List.replicate st.padBottom []
  let ls := ls.map fun l => List.replicate st.padLeft ' ' ++ l ++ List.replicate st.padRight ' '
  let ls := ls ++ List.replicate (st.height.toNat - ls.length) []
  let ls := (if st.borderTop then [borderLine] else []) ++ ls ++
            (if st.borderBottom then [borderLine] else [])
  List.replicate st.marginTop [] ++ ls ++ List.replicate st.marginBottom []

/-- Render a string through a style. -/
def Style.render (st : Style) (s : String) : String :=
  String.mk (joinLinesC (renderLines st s))

/-- `headerStyle` (tui.go:28-33): horizontal padding and one-line bottom
margin. -/
def headerStyle : Style := { padLeft := 1, padRight := 1, marginBottom := 1 }

/-- `logStyle` (tui.go:36-37): color only. -/
def logStyle : Style := {}

/-- `selectedLogStyle` (tui.go:39-42): color only. -/
def selectedLogStyle : Style := {}

/-- `searchStyle` (tui.go:45-49): horizontal padding and one-line top
margin. -/
def searchStyle : Style := { padLeft := 1, padRight := 1, marginTop := 1 }

/-- `errorStyle` (tui.go:52-55): one cell of padding on every side. -/
def errorStyle : Style := { padTop := 1, padBottom := 1, padLeft := 1, padRight := 1 }

/-- `jsonKeyStyle` (tui.go:58-60): color only. -/
def jsonKeyStyle : Style := {}

/-- `jsonStringStyle` (tui.go:62-63): color only. -/
def jsonStringStyle : Style := {}

/-- `jsonNullStyle` (tui.go:68-70): color only. -/
def jsonNullStyle : Style := {}

/-- The inline italic-gray annotation style built inside
`formatFieldValue` (tui.go:475-478): color only. -/
def annotStyle : Style := {}

theorem splitLinesC_ne_nil (xs : List Char) : splitLinesC xs ≠ [] := by
  cases xs with
  | nil => simp [splitLinesC]
  | cons c cs =>
    simp only [splitLinesC]
    cases h : splitLinesC cs with
    | nil => simp
    | cons l ls => by_cases hc : c = '\n' <;> simp [hc]

theorem joinLinesC_splitLinesC (xs : List Char) : joinLinesC (splitLinesC xs) = xs := by
  induction xs with
  | nil => rfl
  | cons c cs ih =>
    simp only [splitLinesC]
    obtain ⟨l, ls, h⟩ : ∃ l ls, splitLinesC cs = l :: ls := by
      cases h : splitLinesC cs with
      | nil => exact absurd h (splitLinesC_ne_nil cs)
      | cons l ls => exact ⟨l, ls, rfl⟩
    rw [h] at ih
    rw [h]
    by_cases hc : c = '\n'
    · subst hc
      simp only [if_pos rfl]
      simpa [joinLinesC] using ih
    · simp only [if_neg hc]
      cases ls with
      | nil => simp_all [joinLinesC]
      | cons l2 ls2 => simp_all [joinLinesC]

/-- A style with no layout attributes renders its input unchanged. -/
theorem render_colorOnly (s : String) : Style.render {} s = s := by
  simp [Style.render, renderLines, joinLinesC_splitLinesC]

/-! ## Field annotators (tui.go:486-563) -/

/-- Embedding of `getResponseCodeExplanation` (tui.go:486-510). -/
def getResponseCodeExplanation (code : String) : String :=
  match code with
  | "200" => "OK"
  | "400" => "Bad Request"
  | "401" => "Unauthorized"
  | "403" => "Forbidden"
  | "404" => "Not Found"
  | "500" => "Internal Server Error"
  | "502" => "Bad Gateway"
  | "503" => "Service Unavailable"
  | "504" => "Gateway Timeout"
  | "0" => "no response (connection failed)"
  | _ => ""

/-- Embedding of `getFailureExplanation` (tui.go:512-517). -/
def getFailureExplanation (reason : String) : String :=
  if containsSubstr reason "delayed_connect_error" then
    "connection to upstream service failed"
  else ""

/-- Embedding of `formatAddress` (tui.go:519-525). -/
def formatAddress (value : String) : String :=
  let parts := value.splitOn ":"
  if parts.length = 2 then
    "IP: " ++ parts.getD 0 "" ++ ", Port: " ++ parts.getD 1 ""
  else ""

/-- The fixed flag map of `explainResponseFlags` (tui.go:530-550). -/
def flagMap : List (String × String) :=
  [("UH", "upstream unhealthy"),
   ("UF", "upstream connection failure"),
   ("UO", "upstream overflow"),
   ("NR", "no route configured"),
   ("URX", "upstream request timeout"),
   ("DC", "downstream connection termination"),
   ("LH", "local service healthy"),
   ("UR", "upstream retry"),
   ("UC", "upstream connection termination"),
   ("DT", "downstream request timeout"),
   ("LR", "local service rejected"),
   ("RL", "rate limited"),
   ("UAEX", "unauthorized external service"),
   ("RLSE", "rate limited service error"),
   ("IH", "invalid HTTP response"),
   ("SI", "stream idle timeout"),
   ("DPE", "downstream protocol error"),
   ("UPE", "upstream protocol error"),
   ("NC", "no cluster found")]

/-- Embedding of `explainResponseFlags` (tui.go:527-563): split on commas,
collect the mapped phrases of recognized trimmed codes, join with ", ". -/
def explainResponseFlags (flags : String) : String :=
  let parts := flags.splitOn ","
  let explanations := parts.foldl (fun acc flag =>
    match flagMap.lookup (trimSpace flag) with
    | some e => acc ++ [e]
    | none => acc) []
  if 0 < explanations.length then String.intercalate ", " explanations else ""

/-- Test for the Go `value == nil` comparison on an `interface{}`. -/
def GoValue.isNull : GoValue → Bool
  | .vNull => true
  | _ => false

theorem isNull_iff (v : GoValue) : v.isNull = true ↔ v = GoValue.vNull := by
  cases v <;> simp [GoValue.isNull]

/-- Embedding of `getFieldSafely` (tui.go:366-378). -/
def getFieldSafely (fields : List (String × GoValue)) (key : String) : String :=
  match fields.lookup key with
  | some value =>
    if value.isNull then "-"
    else
      let str := goSprint value
      if str = "" ∨ str = "null" then "-" else str
  | none => "-"

/-- The `switch field` of `formatFieldValue` (tui.go:457-470), computing
the `explanation` local. -/
def explanationFor (field value : String) : String :=
  match field with
  | "response_flags" => explainResponseFlags value
  | "response_code" => getResponseCodeExplanation value
  | "upstream_transport_failure_reason" => getFailureExplanation value
  | "duration" => if value = "0" then "request did not complete" else ""
  | "downstream_local_address" => formatAddress value
  | "downstream_remote_address" => formatAddress value
  | "upstream_host" => formatAddress value
  | _ => ""

/-- Embedding of `formatFieldValue` (tui.go:449-484). -/
def formatFieldValue (field value : String) : String :=
  if value = "-" then jsonNullStyle.render "-"
  else
    let explanation := explanationFor field value
    if explanation = "" then jsonStringStyle.render value
    else jsonStringStyle.render value ++ " " ++ annotStyle.render ("(" ++ explanation ++ ")")

theorem jsonStringStyle_render (s : String) : jsonStringStyle.render s = s :=
  render_colorOnly s

theorem annotStyle_render (s : String) : annotStyle.render s = s :=
  render_colorOnly s

theorem jsonNullStyle_render (s : String) : jsonNullStyle.render s = s :=
  render_colorOnly s

/-! ## C9: the response-flag annotator -/

theorem foldl_flag_filterMap (parts : List String) (acc : List String) :
    parts.foldl (fun acc flag =>
      match flagMap.lookup (trimSpace flag) with
      | some e => acc ++ [e]
      | none => acc) acc =
    acc ++ parts.filterMap (fun f => flagMap.lookup (trimSpace f)) := by
  induction parts generalizing acc with
  | nil => simp
  | cons p ps ih =>
    simp only [List.foldl_cons, List.filterMap_cons]
    cases h : flagMap.lookup (trimSpace p) with
    | none => simp [h, ih]
    | some e => simp [h, ih]

/-- C9: the flag annotator splits on commas, expands exactly the recognized
trimmed codes through the 19-entry flag map in order, joins them with ", ",
and returns the empty explanation (not an error) when nothing matches. -/
theorem c9_response_flags (flags : String) :
    explainResponseFlags flags =
      (let ms := (flags.splitOn ",").filterMap fun f => flagMap.lookup (trimSpace f)
       if ms.isEmpty then "" else String.intercalate ", " ms) ∧
    flagMap.length = 19 := by
  refine ⟨?_, rfl⟩
  simp only [explainResponseFlags, foldl_flag_filterMap, List.nil_append]
  rcases h : (flags.splitOn ",").filterMap fun f => flagMap.lookup (trimSpace f) with _ | ⟨e, es⟩ <;>
    simp [h, List.isEmpty]

/-! ## C10: the dash placeholder -/

theorem formatFieldValue_ne_dash (field value : String) (hv : ¬ value = "-") :
    ¬ formatFieldValue field value = "-" := by
  simp only [formatFieldValue, if_neg hv, jsonStringStyle_render, annotStyle_render]
  by_cases he : explanationFor field value = ""
  · rw [if_pos he]
    exact hv
  · rw [if_neg he]
    intro hcontra
    have hlen := congrArg String.length hcontra
    simp only [String.length_append] at hlen
    have hs1 : (" " : String).length = 1 := rfl
    have hs2 : ("(" : String).length = 1 := rfl
    have hs3 : (")" : String).length = 1 := rfl
    have hs4 : ("-" : String).length = 1 := rfl
    omega

/-- The c10 counterexample field map: `response_flags` carries the literal
string value "-", the common Envoy rendering of "no flags". -/
def c10fields : List (String × GoValue) := [("response_flags", GoValue.vStr "-")]

/-- C10 counterexample: a present, non-nil field whose string form is "-"
(neither empty nor "null") is rendered exactly like a missing field — the
dash placeholder with no annotation — refuting the claimed "exactly when".
-/
theorem c10_dash_counterexample :
    c10fields.lookup "response_flags" = some (GoValue.vStr "-") ∧
    ¬ goSprint (GoValue.vStr "-") = "" ∧
    ¬ goSprint (GoValue.vStr "-") = "null" ∧
    formatFieldValue "response_flags" (getFieldSafely c10fields "response_flags") =
      formatFieldValue "response_flags" (getFieldSafely [] "response_flags") ∧
    formatFieldValue "response_flags" (getFieldSafely [] "response_flags") =
      jsonNullStyle.render "-" := by
  refine ⟨rfl, by decide, by decide, rfl, rfl⟩

/-- C10 (amended): a field of the detail panel renders as the dash
placeholder (with no parenthetical annotation) exactly when the key is
absent, its value is nil, or its value's `fmt.Sprint` form is "", "null",
or itself the literal "-"; in particular a field whose string value is
"null" — or "-" — is rendered identically to a missing field. -/
theorem c10_dash_amended (fields : List (String × GoValue)) (key : String) :
    (formatFieldValue key (getFieldSafely fields key) = jsonNullStyle.render "-" ↔
      (fields.lookup key = none ∨ fields.lookup key = some GoValue.vNull ∨
       ∃ v, fields.lookup key = some v ∧
         (goSprint v = "" ∨ goSprint v = "null" ∨ goSprint v = "-"))) ∧
    formatFieldValue key (getFieldSafely [] key) = jsonNullStyle.render "-" := by
  have hdash : jsonNullStyle.render "-" = "-" := render_colorOnly "-"
  refine ⟨?_, rfl⟩
  cases hl : fields.lookup key with
  | none =>
    have hgf : getFieldSafely fields key = "-" := by simp [getFieldSafely, hl]
    rw [hgf]
    exact iff_of_true rfl (Or.inl rfl)
  | some v =>
    by_cases hn : v.isNull = true
    · have hv : v = GoValue.vNull := (isNull_iff v).mp hn
      have hgf : getFieldSafely fields key = "-" := by simp [getFieldSafely, hl, hn]
      rw [hgf]
      exact iff_of_true rfl (Or.inr (Or.inl (by simp [hv])))
    · have hgf : getFieldSafely fields key =
          if goSprint v = "" ∨ goSprint v = "null" then "-" else goSprint v := by
        simp [getFieldSafely, hl, hn]
      by_cases hs : goSprint v = "" ∨ goSprint v = "null"
      · rw [hgf, if_pos hs]
        exact iff_of_true rfl (Or.inr (Or.inr ⟨v, rfl, hs.imp id Or.inl⟩))
      · rw [hgf, if_neg hs]
        by_cases hd : goSprint v = "-"
        · rw [hd]
          exact iff_of_true rfl (Or.inr (Or.inr ⟨v, rfl, Or.inr (Or.inr hd)⟩))
        · refine iff_of_false ?_ ?_
          · rw [hdash]
            exact formatFieldValue_ne_dash key (goSprint v) hd
          · rintro (h | h | ⟨v', hv', hcond⟩)
            · exact Option.noConfusion h
            · have hveq : v = GoValue.vNull := Option.some.inj h
              rw [hveq] at hn
              exact hn rfl
            · have hvv : v' = v := (Option.some.inj hv').symm
              rw [hvv] at hcond
              rcases hcond with h1 | h1 | h1
              · exact hs (Or.inl h1)
              · exact hs (Or.inr h1)
              · exact hd h1

/-! ## JSON model (`encoding/json` as used by tui.go:188-197)

`jsonUnmarshal` models `json.Unmarshal` into `interface{}`: numbers keep
their decimal token, objects become key-sorted duplicate-free association
lists (Go maps forget order and duplicates, last write wins, and Go prints
keys sorted), and `marshalIndent` models `json.MarshalIndent(v, "", "  ")`
on such values.  Surrogate-pair `\u` escapes and fractional RFC3339
seconds are outside the model: inputs using them fail the model parser
where Go would accept them, which only moves records between the
pretty-printed and verbatim branches of the raw panel. -/

/-- JSON whitespace skipping (space, tab, newline, carriage return). -/
def skipWs (cs : List Char) : List Char :=
  cs.dropWhile fun c => c = ' ' ∨ c = '\t' ∨ c = '\n' ∨ c = '\r'

/-- Hex digit value. -/
def hexVal (c : Char) : Option Nat :=
  if '0' ≤ c ∧ c ≤ '9' then some (c.toNat - '0'.toNat)
  else if 'a' ≤ c ∧ c ≤ 'f' then some (c.toNat - 'a'.toNat + 10)
  else if 'A' ≤ c ∧ c ≤ 'F' then some (c.toNat - 'A'.toNat + 10)
  else none

/-- Parse the body of a JSON string after the opening quote, returning the
decoded characters and the input after the closing quote. -/
def parseStrChars : List Char → Option (List Char × List Char)
  | [] => none
  | '"' :: rest => some ([], rest)
  | '\\' :: e :: rest =>
    match e with
    | '"' => (parseStrChars rest).map fun (b, r) => ('"' :: b, r)
    | '\\' => (parseStrChars rest).map fun (b, r) => ('\\' :: b, r)
    | '/' => (parseStrChars rest).map fun (b, r) => ('/' :: b, r)
    | 'n' => (parseStrChars rest).map fun (b, r) => ('\n' :: b, r)
    | 't' => (parseStrChars rest).map fun (b, r) => ('\t' :: b, r)
    | 'r' => (parseStrChars rest).map fun (b, r) => ('\r' :: b, r)
    | 'b' => (parseStrChars rest).map fun (b, r) => (Char.ofNat 8 :: b, r)
    | 'f' => (parseStrChars rest).map fun (b, r) => (Char.ofNat 12 :: b, r)
    | 'u' =>
      match rest with
      | h1 :: h2 :: h3 :: h4 :: rest2 =>
        match hexVal h1, hexVal h2, hexVal h3, hexVal h4 with
        | some a, some b, some c, some d =>
          let code := ((a * 16 + b) * 16 + c) * 16 + d
          if code < 0xD800 ∨ 0xE000 ≤ code then
            (parseStrChars rest2).map fun (bd, r) => (Char.ofNat code :: bd, r)
          else none
        | _, _, _, _ => none
      | _ => none
    | _ => none
  | c :: rest =>
    if c.toNat < 0x20 then none
    else (parseStrChars rest).map fun (b, r) => (c :: b, r)

/-- Parse a JSON number token (sign, integer, fraction, exponent),
returning the consumed characters. -/
def parseNumToken (cs : List Char) : Option (List Char × List Char) :=
  let (sign, cs1) := match cs with
    | '-' :: rest => (['-'], rest)
    | _ => ([], cs)
  let (intPart, cs2) := (cs1.takeWhile Char.isDigit, cs1.dropWhile Char.isDigit)
  if intPart.isEmpty then none
  else if intPart.headD '0' = '0' ∧ intPart.length ≠ 1 then none
  else
    let (fracPart, cs3) := match cs2 with
      | '.' :: rest =>
        let ds := rest.takeWhile Char.isDigit
        if ds.isEmpty then ([], cs2) else ('.' :: ds, rest.dropWhile Char.isDigit)
      | _ => ([], cs2)
    if fracPart.isEmpty ∧ cs2 ≠ cs3 then none
    else
      match cs3 with
      | e :: rest3 =>
        if e = 'e' ∨ e = 'E' then
          let (esign, rest4) := match rest3 with
            | '+' :: r => (['+'], r)
            | '-' :: r => (['-'], r)
            | _ => ([], rest3)
          let ds := rest4.takeWhile Char.isDigit
          if ds.isEmpty then none
          else some (sign ++ intPart ++ fracPart ++ e :: esign ++ ds, rest4.dropWhile Char.isDigit)
        else some (sign ++ intPart ++ fracPart, cs3)
      | [] => some (sign ++ intPart ++ fracPart, cs3)

/-- Codepoint-order comparison of character lists: the order Go's
byte-wise `<` induces on UTF-8 strings. -/
def charListLt : List Char → List Char → Bool
  | [], [] => false
  | [], _ :: _ => true
  | _ :: _, [] => false
  | a :: as, b :: bs =>
    if a.toNat < b.toNat then true
    else if b.toNat < a.toNat then false
    else charListLt as bs

/-- Go string `<` on the rune level. -/
def strLtB (a b : String) : Bool := charListLt a.toList b.toList

/-- Sorted duplicate-free insertion modelling a Go map write (last write
wins; Go renders map keys in sorted order). -/
def insertPairGo (k : String) (v : GoValue) : List (String × GoValue) → List (String × GoValue)
  | [] => [(k, v)]
  | (k2, v2) :: ps =>
    if k = k2 then (k, v) :: ps
    else if strLtB k k2 then (k, v) :: (k2, v2) :: ps
    else (k2, v2) :: insertPairGo k v ps

mutual
/-- Fuel-indexed JSON value parser. -/
def parseVal : Nat → List Char → Option (GoValue × List Char)
  | 0, _ => none
  | fuel + 1, cs =>
    match skipWs cs with
    | [] => none
    | 'n' :: 'u' :: 'l' :: 'l' :: rest => some (.vNull, rest)
    | 't' :: 'r' :: 'u' :: 'e' :: rest => some (.vBool true, rest)
    | 'f' :: 'a' :: 'l' :: 's' :: 'e' :: rest => some (.vBool false, rest)
    | '"' :: rest => (parseStrChars rest).map fun (b, r) => (.vStr (String.mk b), r)
    | '[' :: rest => parseArrItems fuel rest true []
    | '{' :: rest => parseObjItems fuel rest true []
    | c :: rest =>
      if c = '-' ∨ c.isDigit then
        (parseNumToken (c :: rest)).map fun (tok, r) => (.vNum (String.mk tok), r)
      else none

/-- Parse array elements after `[` (or after a comma when not `first`). -/
def parseArrItems : Nat → List Char → Bool → List GoValue → Option (GoValue × List Char)
  | 0, _, _, _ => none
  | fuel + 1, cs, first, acc =>
    match skipWs cs with
    | ']' :: rest => if first then some (.vArr acc.reverse, rest) else none
    | cs' =>
      match parseVal fuel cs' with
      | none => none
      | some (v, rest) =>
        match skipWs rest with
        | ',' :: rest2 => parseArrItems fuel rest2 false (v :: acc)
        | ']' :: rest2 => some (.vArr (v :: acc).reverse, rest2)
        | _ => none

/-- Parse object members after an opening brace (or after a comma when not
`first`). -/
def parseObjItems : Nat → List Char → Bool → List (String × GoValue) → Option (GoValue × List Char)
  | 0, _, _, _ => none
  | fuel + 1, cs, first, acc =>
    match skipWs cs with
    | '}' :: rest => if first then some (.vObj acc, rest) else none
    | '"' :: rest =>
      match parseStrChars rest with
      | none => none
      | some (kbody, rest1) =>
        match skipWs rest1 with
        | ':' :: rest2 =>
          match parseVal fuel rest2 with
          | none => none
          | some (v, rest3) =>
            let acc2 := insertPairGo (String.mk kbody) v acc
            match skipWs rest3 with
            | ',' :: rest4 => parseObjItems fuel rest4 false acc2
            | '}' :: rest4 => some (.vObj acc2, rest4)
            | _ => none
        | _ => none
    | _ => none
end

/-- Model of `json.Unmarshal(raw, &v)` for an `interface{}` target: parse
one value and require only whitespace to remain. -/
def jsonUnmarshal (s : String) : Option GoValue :=
  match parseVal (2 * s.length + 4) s.toList with
  | some (v, rest) => if (skipWs rest).isEmpty then some v else none
  | none => none

/-- Lowercase hex digit. -/
def hexDigit (n : Nat) : Char :=
  if n < 10 then Char.ofNat ('0'.toNat + n) else Char.ofNat ('a'.toNat + n - 10)

/-- Go JSON escaping of one character (`encoding/json` escapes quotes,
backslashes, control characters, and HTML-escapes angle brackets and
ampersands). -/
def jsonEscapeChar (c : Char) : List Char :=
  if c = '"' then ['\\', '"']
  else if c = '\\' then ['\\', '\\']
  else if c = '\n' then ['\\', 'n']
  else if c = '\r' then ['\\', 'r']
  else if c = '\t' then ['\\', 't']
  else if c = '<' then '\\' :: 'u' :: '0' :: '0' :: '3' :: ['c']
  else if c = '>' then '\\' :: 'u' :: '0' :: '0' :: '3' :: ['e']
  else if c = '&' then '\\' :: 'u' :: '0' :: '0' :: '2' :: ['6']
  else if c.toNat < 0x20 then
    '\\' :: 'u' :: '0' :: '0' :: hexDigit (c.toNat / 16) :: [hexDigit (c.toNat % 16)]
  else [c]

/-- A JSON-quoted string: escaped and wrapped in double quotes. -/
def jsonQuote (s : String) : String :=
  "\"" ++ String.mk (s.toList.map jsonEscapeChar).join ++ "\""

mutual
/-- Model of `json.MarshalIndent(v, "", "  ")` at an accumulated indent:
objects and arrays open on their own line, members are indented two more
spaces, pairs print as `"key": value`. -/
def marshalVal (ind : String) : GoValue → String
  | .vNull => "null"
  | .vBool b => if b then "true" else "false"
  | .vNum tok => tok
  | .vStr s => jsonQuote s
  | .vArr [] => "[]"
  | .vArr (e :: es) =>
    "[\n" ++ marshalItems (ind ++ "  ") (e :: es) ++ "\n" ++ ind ++ "]"
  | .vObj [] => "\x7b\x7d"
  | .vObj (p :: ps) =>
    "\x7b\n" ++ marshalMembers (ind ++ "  ") (p :: ps) ++ "\n" ++ ind ++ "\x7d"

/-- Array elements, one per line, comma-separated. -/
def marshalItems (ind : String) : List GoValue → String
  | [] => ""
  | [e] => ind ++ marshalVal ind e
  | e :: es => ind ++ marshalVal ind e ++ ",\n" ++ marshalItems ind es

/-- Object members, one per line, comma-separated. -/
def marshalMembers (ind : String) : List (String × GoValue) → String
  | [] => ""
  | [(k, v)] => ind ++ jsonQuote k ++ ": " ++ marshalVal ind v
  | (k, v) :: ps => ind ++ jsonQuote k ++ ": " ++ marshalVal ind v ++ ",\n" ++ marshalMembers ind ps
end

/-- Top-level `json.MarshalIndent(v, "", "  ")`. -/
def marshalIndent (v : GoValue) : String := marshalVal "" v

/-! ## The three panels (tui.go:175-203, 258-364, 380-447) -/

/-- The style built inside `renderRawLog` (tui.go:176-183); its `Width`
call only wraps and is dropped with the rest of the width handling. -/
def rawLogStyle (height : Int) : Style :=
  { padLeft := 1, padRight := 1, height := height, borderTop := false, borderBottom := true }

/-- Embedding of `renderRawLog` (tui.go:175-203): a "Raw Log" title, then
the raw text re-marshalled with two-space indentation when it parses as
JSON, and the raw text verbatim otherwise. -/
def renderRawLog (log : ParsedLog) (width height : Int) : String :=
  let content := headerStyle.render "Raw Log" ++ "\n" ++
    (match jsonUnmarshal log.RawLog with
     | some parsed => jsonStringStyle.render (marshalIndent parsed)
     | none => jsonStringStyle.render log.RawLog)
  (rawLogStyle height).render content

/-- Model of Go `fmt.Sprintf "%3d"`. -/
def pad3 (n : Int) : String :=
  let s := toString n
  if s.length < 3 then String.mk (List.replicate (3 - s.length) ' ') ++ s else s

/-- Model of Go `fmt.Sprintf "%-30s"`. -/
def pad30 (s : String) : String :=
  if s.length < 30 then s ++ String.mk (List.replicate (30 - s.length) ' ') else s

/-- Embedding of `truncate` (tui.go:565-580), on runes exactly as the
source converts to `[]rune`. -/
def truncate (input : String) (maxLen : Int) : String :=
  if maxLen ≤ 0 then ""
  else if (input.length : Int) ≤ maxLen then input
  else if maxLen ≤ 3 then String.mk (List.replicate maxLen.toNat '.')
  else String.mk (input.toList.take (maxLen - 3).toNat) ++ "..."

/-- Shape test for the RFC3339 timezone suffix. -/
def validTz : List Char → Bool
  | ['Z'] => true
  | [c, h1, h2, ':', m1, m2] =>
    (c = '+' ∨ c = '-') ∧ (h1.isDigit ∧ h2.isDigit ∧ m1.isDigit ∧ m2.isDigit)
  | _ => false

/-- Model of `time.Parse(time.RFC3339, s)` followed by
`t.Format("15:04:05")`: on an RFC3339-shaped timestamp the formatted clock
is its `HH:MM:SS` slice (fractional seconds and field range checks are
outside the model). -/
def rfc3339Clock (s : String) : Option String :=
  match s.toList with
  | y1 :: y2 :: y3 :: y4 :: '-' :: m1 :: m2 :: '-' :: d1 :: d2 :: 'T' ::
    h1 :: h2 :: ':' :: mi1 :: mi2 :: ':' :: s1 :: s2 :: rest =>
    if ([y1, y2, y3, y4, m1, m2, d1, d2, h1, h2, mi1, mi2, s1, s2].all Char.isDigit) ∧
        validTz rest then
      some (String.mk [h1, h2, ':', mi1, mi2, ':', s1, s2])
    else none
  | _ => none

/-- Embedding of `formatLogPreview` (tui.go:328-364): clock, response
code, flags, method and path when present, else the truncated raw text. -/
def formatLogPreview (log : ParsedLog) (maxWidth : Int) : String :=
  let parts : List String := []
  let parts := match log.Fields.lookup "start_time" with
    | some (GoValue.vStr startTime) =>
      if startTime ≠ "" then
        match rfc3339Clock startTime with
        | some clock => parts ++ [clock]
        | none => parts
      else parts
    | _ => parts
  let parts := match log.Fields.lookup "response_code" with
    | some (GoValue.vNum tok) => parts ++ ["[" ++ tok ++ "]"]
    | _ => parts
  let parts := match log.Fields.lookup "response_flags" with
    | some (GoValue.vStr flags) => if flags ≠ "" then parts ++ [flags] else parts
    | _ => parts
  let parts := match log.Fields.lookup "method" with
    | some (GoValue.vStr method) =>
      if method ≠ "" ∧ method ≠ "null" then parts ++ [method] else parts
    | _ => parts
  let parts := match log.Fields.lookup "path" with
    | some (GoValue.vStr path) =>
      if path ≠ "" ∧ path ≠ "null" then parts ++ [path] else parts
    | _ => parts
  let preview := String.intercalate " " parts
  let preview := if preview.length = 0 then truncate log.RawLog maxWidth else preview
  truncate preview maxWidth

/-- The style built inside `renderLogList` (tui.go:264-269). -/
def listPanelStyle (height : Int) : Style :=
  { height := height, borderTop := true, borderBottom := true }

/-- The loop bounds of `renderLogList` (tui.go:279-291): the visible row
indices, centered on the selection and clamped to the record count. -/
def listRowIndices (len : Nat) (selectedIdx height : Int) : List Nat :=
  let availableLines := height - 4
  let availableLines := if availableLines < 0 then 0 else availableLines
  let startIdx := selectedIdx - availableLines / 2
  let startIdx := if startIdx < 0 then 0 else startIdx
  let endIdx := startIdx + availableLines
  let (startIdx, endIdx) :=
    if endIdx > (len : Int) then
      let endIdx := (len : Int)
      let startIdx := endIdx - availableLines
      (if startIdx < 0 then 0 else startIdx, endIdx)
    else (startIdx, endIdx)
  (List.range len).filter fun i => startIdx ≤ (i : Int) ∧ (i : Int) < endIdx

/-- Embedding of `renderLogList` (tui.go:258-326).  The per-row severity
coloring (tui.go:313-320) changes only colors and is dropped with them. -/
def renderLogList (logs : List ParsedLog) (selectedIdx width height : Int) : String :=
  if logs.length = 0 then ""
  else
    let title := headerStyle.render "Log List (use ↑↓ to navigate)" ++ "\n"
    let rows := (listRowIndices logs.length selectedIdx height).map fun i =>
      let log := logs.getD i defaultLog
      let cursor := if (i : Int) = selectedIdx then "▶ " else "  "
      let lineNum := cursor ++ pad3 log.LineNumber ++ ":"
      let preview := formatLogPreview log (width - (lineNum.length : Int) - 6)
      lineNum ++ " " ++ preview
    let body := title ++ String.join (rows.map fun r => r ++ "\n")
    (listPanelStyle height).render body

/-- The four fixed field groups of the detail panel (tui.go:401-421). -/
def detailGroups : List (String × List String) :=
  [("Request Info",
    ["start_time", "method", "protocol", "authority", "path",
     "request_id", "user_agent", "client_ip", "x_forwarded_for"]),
   ("Response Info",
    ["response_code", "response_code_details", "response_flags",
     "duration", "bytes_sent", "bytes_received"]),
   ("Upstream Info",
    ["upstream_cluster", "upstream_host", "upstream_local_address",
     "upstream_service_time", "upstream_transport_failure_reason"]),
   ("Downstream Info",
    ["downstream_local_address", "downstream_remote_address",
     "requested_server_name", "route_name"])]

/-- One group of the detail panel (the loop body at tui.go:423-444). -/
def renderDetailGroup (log : ParsedLog) (g : String × List String) : String :=
  let fieldLines := g.2.map fun field =>
    pad30 field ++ ": " ++ formatFieldValue field (getFieldSafely log.Fields field) ++ "\n"
  let hasData := g.2.any fun field => getFieldSafely log.Fields field ≠ "-"
  g.1 ++ "\n" ++ String.join fieldLines ++
    (if hasData then "" else jsonNullStyle.render "No data available\n") ++ "\n"

/-- The style built inside `renderDetailView` (tui.go:389-395). -/
def detailPanelStyle (height : Int) : Style :=
  { padLeft := 1, padRight := 1, height := height, borderTop := false, borderBottom := true }

/-- Embedding of `renderDetailView` (tui.go:380-447), including its early
bail-outs on non-positive dimensions. -/
def renderDetailView (log : ParsedLog) (width height : Int) : String :=
  if width ≤ 0 then ""
  else if height ≤ 0 then ""
  else
    let content := headerStyle.render "Parsed Log Details" ++ "\n\n" ++
      String.join (detailGroups.map (renderDetailGroup log))
    (detailPanelStyle height).render content

/-! ## The frame (`Model.View`, tui.go:205-256) -/

/-- Model of `lipgloss.JoinVertical(lipgloss.Left, ...)`. -/
def joinVert : List String → String
  | [] => ""
  | [s] => s
  | s :: rest => s ++ "\n" ++ joinVert rest

/-- `mainHeight` of `Model.View` (tui.go:217-220): viewport height minus
the 4-line header reservation, clamped at zero. -/
def viewMainHeight (m : Model) : Int :=
  let mainHeight := m.height - 4
  if mainHeight < 0 then 0 else mainHeight

/-- The unclamped 20% list share (tui.go:223). -/
def viewListHeightRaw (m : Model) : Int := viewMainHeight m * 20 / 100

/-- The fixed raw-log height computed at tui.go:224 (and then never passed
to any renderer). -/
def viewRawLogHeight : Int := 3

/-- The unclamped detail remainder (tui.go:225), computed from the
unclamped list share. -/
def viewDetailHeightRaw (m : Model) : Int :=
  viewMainHeight m - viewListHeightRaw m - viewRawLogHeight

/-- The clamped list height (tui.go:228-230); this is the only computed
height `View` passes to a panel renderer. -/
def viewListHeight (m : Model) : Int :=
  if viewListHeightRaw m < 5 then 5 else viewListHeightRaw m

/-- The clamped detail height (tui.go:231-233), never used afterwards. -/
def viewDetailHeight (m : Model) : Int :=
  if viewDetailHeightRaw m < 10 then 10 else viewDetailHeightRaw m

/-- The empty-state message of `Model.View` (tui.go:207). -/
def noLogsMessage : String := "No valid logs found. Press \x27q\x27 to quit."

/-- The header line of `Model.View` (tui.go:210-214). -/
def viewHeader (m : Model) : String :=
  headerStyle.render ("Log " ++ toString (m.selectedLogIndex + 1) ++ " of " ++
    toString m.filteredLogs.length ++
    " | Press \x27s\x27 to search, \x27/\x27 to jump, \x27q\x27 to quit")

/-- Embedding of `Model.View` (tui.go:205-256).  The raw and detail panels
are rendered with `m.height`, exactly as in the source (tui.go:236-237);
the out-of-range indexing the source would panic on is totalized with
`defaultLog`. -/
def Model.View (m : Model) : String :=
  if m.filteredLogs.length = 0 then errorStyle.render noLogsMessage
  else
    let selLog := m.filteredLogs.getD m.selectedLogIndex.toNat defaultLog
    let logList := renderLogList m.filteredLogs m.selectedLogIndex m.width (viewListHeight m)
    let rawLog := renderRawLog selLog m.width m.height
    let detailView := renderDetailView selLog m.width m.height
    let mainContent := joinVert [logList, rawLog, detailView]
    if m.searchMode || m.jumpMode then
      let mode := if m.jumpMode then "Jump to line" else "Search"
      let overlay := searchStyle.render (mode ++ ": " ++ m.searchQuery)
      joinVert [viewHeader m, mainContent, overlay]
    else joinVert [viewHeader m, mainContent]

/-! ## C4: rendering the empty state -/

/-- C4: on empty `visibleRecords`, `View` returns the fixed non-empty
quit-instructing message — independent of the rest of the state, so no
indexing into the empty sequence can occur — and none of the three panel
section markers appear in the output. -/
theorem c4_empty_render (m : Model) (h : m.filteredLogs = []) :
    Model.View m = errorStyle.render noLogsMessage ∧
    ¬ Model.View m = "" ∧
    containsSubstr (Model.View m) "quit" = true ∧
    containsSubstr (Model.View m) "Log List" = false ∧
    containsSubstr (Model.View m) "Raw Log" = false ∧
    containsSubstr (Model.View m) "Parsed Log Details" = false := by
  have hv : Model.View m = errorStyle.render noLogsMessage := by
    simp [Model.View, h]
  refine ⟨hv, ?_, ?_, ?_, ?_, ?_⟩ <;> rw [hv] <;> decide

/-- State with an empty filtered view, as left by a zero-result search. -/
def c4m : Model :=
  { logs := [logA, logB], filteredLogs := [], selectedLogIndex := 0,
    searchMode := false, jumpMode := false, searchQuery := "", width := 100, height := 40 }

/-- Witness for C4 at a concrete empty-view state. -/
theorem c4_empty_render_witness :
    Model.View c4m = errorStyle.render noLogsMessage ∧
    containsSubstr (Model.View c4m) "quit" = true :=
  ⟨(c4_empty_render c4m rfl).1, (c4_empty_render c4m rfl).2.2.1⟩

/-! ## Line counting through the render pipeline -/

theorem strToList_append (a b : String) : (a ++ b).toList = a.toList ++ b.toList :=
  String.data_append a b

theorem linesCount_append_nl (a b : String) :
    linesCount (a ++ "\n" ++ b) = linesCount a + linesCount b := by
  simp only [linesCount, strToList_append, List.count_append]
  have : ("\n" : String).toList.count '\n' = 1 := rfl
  omega

theorem linesCount_joinVert2 (a b : String) :
    linesCount (joinVert [a, b]) = linesCount a + linesCount b := by
  show linesCount (a ++ "\n" ++ joinVert [b]) = _
  rw [show joinVert [b] = b from rfl, linesCount_append_nl]

theorem linesCount_joinVert3 (a b c : String) :
    linesCount (joinVert [a, b, c]) = linesCount a + linesCount b + linesCount c := by
  show linesCount (a ++ "\n" ++ joinVert [b, c]) = _
  rw [linesCount_append_nl, linesCount_joinVert2]
  omega

theorem mem_splitLinesC_no_nl (xs : List Char) : ∀ l ∈ splitLinesC xs, '\n' ∉ l := by
  induction xs with
  | nil =>
    intro l hl
    simp [splitLinesC] at hl
    simp [hl]
  | cons c cs ih =>
    intro l hl
    simp only [splitLinesC] at hl
    cases h : splitLinesC cs with
    | nil => exact absurd h (splitLinesC_ne_nil cs)
    | cons l0 ls0 =>
      rw [h] at hl
      by_cases hc : c = '\n'
      · subst hc
        simp only [if_pos rfl] at hl
        rcases List.mem_cons.mp hl with h1 | h1
        · simp [h1]
        · exact ih l (by rw [h]; exact h1)
      · simp only [if_neg hc] at hl
        rcases List.mem_cons.mp hl with h1 | h1
        · subst h1
          intro hmem
          rcases List.mem_cons.mp hmem with h2 | h2
          · exact hc h2.symm
          · exact ih l0 (by rw [h]; exact List.mem_cons_self _ _) h2
        · exact ih l (by rw [h]; exact List.mem_cons_of_mem _ h1)

theorem count_nl_joinLinesC (lss : List (List Char)) (h : ∀ l ∈ lss, '\n' ∉ l) :
    (joinLinesC lss).count '\n' + 1 = max lss.length 1 := by
  induction lss with
  | nil => simp [joinLinesC]
  | cons l ls ih =>
    cases ls with
    | nil =>
      have hl : '\n' ∉ l := h l (List.mem_cons_self _ _)
      simp [joinLinesC, List.count_eq_zero.mpr hl]
    | cons l2 ls2 =>
      have hl : '\n' ∉ l := h l (List.mem_cons_self _ _)
      have ih2 := ih fun x hx => h x (List.mem_cons_of_mem _ hx)
      show (l ++ '\n' :: joinLinesC (l2 :: ls2)).count '\n' + 1 = _
      rw [List.count_append, List.count_cons]
      have hz : l.count '\n' = 0 := List.count_eq_zero.mpr hl
      simp only [hz, beq_self_eq_true, if_true, List.length_cons]
      simp only [List.length_cons] at ih2
      omega

theorem renderLines_no_nl (st : Style) (s : String) : ∀ l ∈ renderLines st s, '\n' ∉ l := by
  intro l hl
  simp only [renderLines, List.mem_append, List.mem_replicate, List.mem_map] at hl
  rcases hl with (⟨-, rfl⟩ | hl) | ⟨-, rfl⟩
  · simp
  · rcases hl with (hb | hl) | hb
    · have hlb : l = borderLine := by
        by_cases h : st.borderTop <;> simp [h] at hb
        exact hb
      simp [hlb, borderLine]
    · rcases hl with ⟨l0, hl0, rfl⟩ | ⟨-, rfl⟩
      · have hl0nl : '\n' ∉ l0 := by
          rcases hl0 with (⟨-, rfl⟩ | hl0) | ⟨-, rfl⟩
          · simp
          · exact mem_splitLinesC_no_nl s.toList l0 hl0
          · simp
        simp [List.mem_append, List.mem_replicate, hl0nl]
      · simp
    · have hlb : l = borderLine := by
        by_cases h : st.borderBottom <;> simp [h] at hb
        exact hb
      simp [hlb, borderLine]
  · simp

theorem linesCount_render (st : Style) (s : String) :
    linesCount (st.render s) = max (renderLines st s).length 1 := by
  have h := count_nl_joinLinesC (renderLines st s) (renderLines_no_nl st s)
  simp only [Style.render, linesCount]
  have hmk : (String.mk (joinLinesC (renderLines st s))).toList = joinLinesC (renderLines st s) := rfl
  rw [hmk]
  omega

theorem renderLines_length_ge (st : Style) (s : String) :
    st.height.toNat + (if st.borderTop then 1 else 0) + (if st.borderBottom then 1 else 0) +
      st.marginTop + st.marginBottom ≤ (renderLines st s).length := by
  simp only [renderLines, List.length_append, List.length_map, List.length_replicate]
  by_cases h1 : st.borderTop <;> by_cases h2 : st.borderBottom <;> simp [h1, h2] <;> omega

theorem render_height_le (st : Style) (s : String) (hbb : st.borderBottom = true) :
    st.height.toNat + 1 ≤ linesCount (st.render s) := by
  have hge := renderLines_length_ge st s
  rw [linesCount_render]
  rw [hbb] at hge
  by_cases hbt : st.borderTop <;> simp [hbt] at hge <;> omega

theorem linesCount_renderRawLog (log : ParsedLog) (w h : Int) :
    h.toNat + 1 ≤ linesCount (renderRawLog log w h) := by
  rw [renderRawLog]
  exact render_height_le (rawLogStyle h) _ rfl

theorem linesCount_renderDetailView (log : ParsedLog) (w h : Int)
    (hw : 0 < w) (hh : 0 < h) :
    h.toNat + 1 ≤ linesCount (renderDetailView log w h) := by
  rw [renderDetailView, if_neg (by omega), if_neg (by omega)]
  exact render_height_le (detailPanelStyle h) _ rfl

/-! ## C5: vertical space budgeting -/

theorem linesCount_pos (s : String) : 1 ≤ linesCount s := by
  simp [linesCount]

/-- Normal-mode state on two records at 100x40, the `TestView` geometry. -/
def c5m : Model :=
  { logs := [logA, logB], filteredLogs := [logA, logB], selectedLogIndex := 0,
    searchMode := false, jumpMode := false, searchQuery := "", width := 100, height := 40 }

set_option maxRecDepth 4000 in
/-- C5 counterexample: at a 100x40 viewport the code computes the claimed
budget (list 7 = 20% of 36, raw 3, detail 26), but `View` passes the full
viewport height 40 — not 3 and not 26 — to the raw and detail panel
renderers, and the raw panel then occupies 41 output lines instead of 3. -/
theorem c5_counterexample :
    viewMainHeight c5m = 36 ∧
    viewListHeight c5m = 7 ∧
    viewRawLogHeight = 3 ∧
    viewDetailHeight c5m = 26 ∧
    Model.View c5m = joinVert [viewHeader c5m,
      joinVert [renderLogList [logA, logB] 0 100 (viewListHeight c5m),
                renderRawLog logA 100 40,
                renderDetailView logA 100 40]] ∧
    linesCount (renderRawLog logA 100 40) = 41 := by
  refine ⟨rfl, rfl, rfl, rfl, rfl, by decide⟩

/-- C5 (amended): `View` computes mainHeight = viewport height minus 4
(clamped at 0), a list height of 20% of it (minimum 5) which is the only
computed height actually passed to a panel, a rawLogHeight of 3 and a
detail remainder (minimum 10) which are both unused: the raw and the
detail panel are each rendered with the full viewport height, so a
non-degenerate frame occupies at least twice the viewport height plus the
header and list lines. -/
theorem c5_layout_amended (m : Model) (hne : m.filteredLogs.length ≠ 0)
    (hh : 0 < m.height) (hw : 0 < m.width) :
    viewMainHeight m = max (m.height - 4) 0 ∧
    viewListHeight m = max (viewMainHeight m * 20 / 100) 5 ∧
    viewRawLogHeight = 3 ∧
    viewDetailHeight m = max (viewMainHeight m - viewMainHeight m * 20 / 100 - 3) 10 ∧
    m.height.toNat + 1 ≤ linesCount (renderRawLog
      (m.filteredLogs.getD m.selectedLogIndex.toNat defaultLog) m.width m.height) ∧
    m.height.toNat + 1 ≤ linesCount (renderDetailView
      (m.filteredLogs.getD m.selectedLogIndex.toNat defaultLog) m.width m.height) ∧
    2 * m.height.toNat + 4 ≤ linesCount (Model.View m) := by
  refine ⟨?_, ?_, rfl, ?_, linesCount_renderRawLog _ _ _,
    linesCount_renderDetailView _ _ _ hw hh, ?_⟩
  · simp only [viewMainHeight]
    split <;> omega
  · simp only [viewListHeight, viewListHeightRaw]
    split <;> omega
  · simp only [viewDetailHeight, viewDetailHeightRaw, viewListHeightRaw, viewRawLogHeight]
    split <;> omega
  · have hraw := linesCount_renderRawLog
      (m.filteredLogs.getD m.selectedLogIndex.toNat defaultLog) m.width m.height
    have hdet := linesCount_renderDetailView
      (m.filteredLogs.getD m.selectedLogIndex.toNat defaultLog) m.width m.height hw hh
    have hhead := linesCount_pos (viewHeader m)
    have hlist := linesCount_pos (renderLogList m.filteredLogs m.selectedLogIndex m.width
      (viewListHeight m))
    rw [Model.View, if_neg hne]
    split
    · rw [linesCount_joinVert3, linesCount_joinVert3]
      have hov := linesCount_pos (searchStyle.render
        ((if m.jumpMode then "Jump to line" else "Search") ++ ": " ++ m.searchQuery))
      omega
    · rw [linesCount_joinVert2, linesCount_joinVert3]
      omega

/-- Witness for the amended C5 statement at the 100x40 state. -/
theorem c5_layout_amended_witness :
    viewListHeight c5m = max (viewMainHeight c5m * 20 / 100) 5 ∧
    41 ≤ linesCount (renderRawLog
      (c5m.filteredLogs.getD c5m.selectedLogIndex.toNat defaultLog) c5m.width c5m.height) ∧
    84 ≤ linesCount (Model.View c5m) := by
  have h := c5_layout_amended c5m (by decide) (by decide) (by decide)
  exact ⟨h.2.1, h.2.2.2.2.1, h.2.2.2.2.2.2⟩

/-! ## Substring containment through a styled render -/

theorem splitLinesC_decomp (xs : List Char) : ∃ l ls, splitLinesC xs = l :: ls := by
  cases h : splitLinesC xs with
  | nil => exact absurd h (splitLinesC_ne_nil xs)
  | cons l ls => exact ⟨l, ls, rfl⟩

theorem splitLinesC_append_nl (xs ys : List Char) :
    splitLinesC (xs ++ '\n' :: ys) = splitLinesC xs ++ splitLinesC ys := by
  induction xs with
  | nil =>
    show splitLinesC ('\n' :: ys) = [[]] ++ splitLinesC ys
    obtain ⟨l, ls, h⟩ := splitLinesC_decomp ys
    simp only [splitLinesC, h]
    simp
  | cons c cs ih =>
    obtain ⟨l1, ls1, h1⟩ := splitLinesC_decomp cs
    obtain ⟨l2, ls2, h2⟩ := splitLinesC_decomp (cs ++ '\n' :: ys)
    rw [h2, h1, List.cons_append] at ih
    have e1 : l2 = l1 := (List.cons.inj ih).1
    have e2 : ls2 = ls1 ++ splitLinesC ys := (List.cons.inj ih).2
    show splitLinesC (c :: (cs ++ '\n' :: ys)) = splitLinesC (c :: cs) ++ splitLinesC ys
    by_cases hc : c = '\n'
    · simp only [splitLinesC, h2, h1, if_pos hc]
      simp [e1, e2]
    · simp only [splitLinesC, h2, h1, if_neg hc]
      simp [e1, e2]

theorem joinLinesC_mem_decomp (lss : List (List Char)) (l : List Char) (h : l ∈ lss) :
    ∃ a b, joinLinesC lss = a ++ l ++ b := by
  induction lss with
  | nil => exact absurd h (List.not_mem_nil l)
  | cons l0 ls ih =>
    rcases List.mem_cons.mp h with rfl | hmem
    · cases ls with
      | nil => exact ⟨[], [], by simp [joinLinesC]⟩
      | cons l1 ls1 => exact ⟨[], '\n' :: joinLinesC (l1 :: ls1), by simp [joinLinesC]⟩
    · obtain ⟨a, b, hab⟩ := ih hmem
      cases ls with
      | nil => exact absurd hmem (List.not_mem_nil l)
      | cons l1 ls1 =>
        refine ⟨l0 ++ '\n' :: a, b, ?_⟩
        show l0 ++ '\n' :: joinLinesC (l1 :: ls1) = _
        rw [hab]
        simp

theorem render_mem_line_decomp (st : Style) (s : String) (l : List Char)
    (h : l ∈ splitLinesC s.toList) :
    ∃ a b, (st.render s).toList = a ++ l ++ b := by
  have hl1 : l ∈ List.replicate st.padTop ([] : List Char) ++ splitLinesC s.toList ++
      List.replicate st.padBottom [] :=
    List.mem_append_left _ (List.mem_append_right _ h)
  have hl2 := List.mem_map_of_mem
    (fun l => List.replicate st.padLeft ' ' ++ l ++ List.replicate st.padRight ' ') hl1
  have hpad : (List.replicate st.padLeft ' ' ++ l ++ List.replicate st.padRight ' ') ∈
      renderLines st s := by
    simp only [renderLines]
    exact List.mem_append_left _ (List.mem_append_right _
      (List.mem_append_left _ (List.mem_append_right _ (List.mem_append_left _ hl2))))
  obtain ⟨a1, b1, h1⟩ := joinLinesC_mem_decomp _ _ hpad
  refine ⟨a1 ++ List.replicate st.padLeft ' ', List.replicate st.padRight ' ' ++ b1, ?_⟩
  show joinLinesC (renderLines st s) = _
  rw [h1]
  simp

theorem prefix_no_nl_first_line (t b : List Char) (hn : '\n' ∉ t) :
    ∃ l ls, splitLinesC (t ++ b) = l :: ls ∧ ∃ r, l = t ++ r := by
  induction t with
  | nil =>
    obtain ⟨l, ls, h⟩ := splitLinesC_decomp b
    exact ⟨l, ls, by simpa using h, l, rfl⟩
  | cons c t' ih =>
    have hc : ¬ c = '\n' := fun hh => hn (hh ▸ List.mem_cons_self c t')
    have hn' : '\n' ∉ t' := fun hh => hn (List.mem_cons_of_mem _ hh)
    obtain ⟨l, ls, hsplit, r, hl⟩ := ih hn'
    refine ⟨c :: l, ls, ?_, r, by simp [hl]⟩
    show splitLinesC (c :: (t' ++ b)) = _
    simp only [splitLinesC, hsplit]
    simp [hc]

theorem infix_no_nl_mem_line (t a b : List Char) (hn : '\n' ∉ t) :
    ∃ l ∈ splitLinesC (a ++ t ++ b), ∃ a2 b2, l = a2 ++ t ++ b2 := by
  induction a with
  | nil =>
    obtain ⟨l, ls, hsplit, r, hl⟩ := prefix_no_nl_first_line t b hn
    refine ⟨l, ?_, [], r, by simp [hl]⟩
    simp only [List.nil_append]
    rw [hsplit]
    exact List.mem_cons_self _ _
  | cons c a' ih =>
    obtain ⟨l, hmem, a2, b2, hl⟩ := ih
    obtain ⟨l0, ls0, hsplit⟩ := splitLinesC_decomp (a' ++ t ++ b)
    rw [hsplit] at hmem
    by_cases hc : c = '\n'
    · refine ⟨l, ?_, a2, b2, hl⟩
      show l ∈ splitLinesC (c :: (a' ++ t ++ b))
      simp only [splitLinesC, hsplit, if_pos hc]
      exact List.mem_cons_of_mem _ hmem
    · rcases List.mem_cons.mp hmem with rfl | hmem2
      · refine ⟨c :: l, ?_, c :: a2, b2, by simp [hl]⟩
        show c :: l ∈ splitLinesC (c :: (a' ++ t ++ b))
        simp only [splitLinesC, hsplit, if_neg hc]
        exact List.mem_cons_self _ _
      · refine ⟨l, ?_, a2, b2, hl⟩
        show l ∈ splitLinesC (c :: (a' ++ t ++ b))
        simp only [splitLinesC, hsplit, if_neg hc]
        exact List.mem_cons_of_mem _ hmem2

theorem render_containsSubstr_line (st : Style) (s : String) (l : List Char)
    (h : l ∈ splitLinesC s.toList) :
    containsSubstr (st.render s) (String.mk l) = true := by
  obtain ⟨a, b, hab⟩ := render_mem_line_decomp st s l h
  rw [containsSubstr, segInB_iff]
  exact ⟨a, b, hab.symm⟩

theorem render_containsSubstr_of_infix (st : Style) (s sub : String)
    (hn : '\n' ∉ sub.toList) (a b : List Char) (hdecomp : s.toList = a ++ sub.toList ++ b) :
    containsSubstr (st.render s) sub = true := by
  obtain ⟨l, hlmem, a2, b2, hl⟩ := infix_no_nl_mem_line sub.toList a b hn
  rw [← hdecomp] at hlmem
  obtain ⟨a3, b3, h3⟩ := render_mem_line_decomp st s l hlmem
  rw [containsSubstr, segInB_iff]
  refine ⟨a3 ++ a2, b2 ++ b3, ?_⟩
  rw [h3, hl]
  simp

/-! ## C6: the raw panel -/

theorem hexDigit_ne_nl : ∀ n, n < 16 → ¬ hexDigit n = '\n' := by decide

theorem jsonEscapeChar_no_nl (c : Char) : '\n' ∉ jsonEscapeChar c := by
  unfold jsonEscapeChar
  split_ifs with h1 h2 h3 h4 h5 h6 h7 h8 h9
  · decide
  · decide
  · decide
  · decide
  · decide
  · decide
  · decide
  · decide
  · intro hmem
    simp only [List.mem_cons] at hmem
    rcases hmem with h | h | h | h | h | h
    · exact absurd h (by decide)
    · exact absurd h (by decide)
    · exact absurd h (by decide)
    · exact absurd h (by decide)
    · exact hexDigit_ne_nl (c.toNat / 16) (by omega) h.symm
    · rcases h with h | h
      · exact hexDigit_ne_nl (c.toNat % 16) (by omega) h.symm
      · exact absurd h (List.not_mem_nil _)
  · intro hmem
    rcases List.mem_cons.mp hmem with h | h
    · exact h3 h.symm
    · exact absurd h (List.not_mem_nil _)

theorem jsonQuote_toList (s : String) :
    (jsonQuote s).toList = '"' :: ((s.toList.map jsonEscapeChar).join ++ ['"']) := by
  simp [jsonQuote, strToList_append]

theorem jsonQuote_no_nl (s : String) : '\n' ∉ (jsonQuote s).toList := by
  rw [jsonQuote_toList]
  intro hmem
  rcases List.mem_cons.mp hmem with h | h
  · exact absurd h (by decide)
  · rcases List.mem_append.mp h with h | h
    · obtain ⟨l, hl, hml⟩ := List.mem_join.mp h
      obtain ⟨c, hc, rfl⟩ := List.mem_map.mp hl
      exact jsonEscapeChar_no_nl c hml
    · rcases List.mem_cons.mp h with h | h
      · exact absurd h (by decide)
      · exact absurd h (List.not_mem_nil _)

theorem pairFrag_no_nl (k : String) : '\n' ∉ (jsonQuote k ++ ": ").toList := by
  rw [strToList_append]
  intro hmem
  rcases List.mem_append.mp hmem with h | h
  · exact jsonQuote_no_nl k h
  · rcases List.mem_cons.mp h with h | h
    · exact absurd h (by decide)
    · rcases List.mem_cons.mp h with h | h
      · exact absurd h (by decide)
      · exact absurd h (List.not_mem_nil _)

theorem marshalMembers_pair_decomp (ind : String) (ps : List (String × GoValue))
    (kv : String × GoValue) (h : kv ∈ ps) :
    ∃ a b, (marshalMembers ind ps).toList = a ++ (jsonQuote kv.1 ++ ": ").toList ++ b := by
  induction ps with
  | nil => exact absurd h (List.not_mem_nil kv)
  | cons p ps ih =>
    rcases List.mem_cons.mp h with rfl | hmem
    · cases ps with
      | nil =>
        refine ⟨ind.toList, (marshalVal ind kv.2).toList, ?_⟩
        show (ind ++ jsonQuote kv.1 ++ ": " ++ marshalVal ind kv.2).toList = _
        simp [strToList_append]
      | cons p2 ps2 =>
        refine ⟨ind.toList,
          (marshalVal ind kv.2).toList ++ (",\n" ++ marshalMembers ind (p2 :: ps2)).toList, ?_⟩
        show (ind ++ jsonQuote kv.1 ++ ": " ++ marshalVal ind kv.2 ++ ",\n" ++
          marshalMembers ind (p2 :: ps2)).toList = _
        simp [strToList_append]
    · cases ps with
      | nil => exact absurd hmem (List.not_mem_nil kv)
      | cons p2 ps2 =>
        obtain ⟨a, b, hab⟩ := ih hmem
        refine ⟨(ind ++ jsonQuote p.1 ++ ": " ++ marshalVal ind p.2 ++ ",\n").toList ++ a, b, ?_⟩
        show (ind ++ jsonQuote p.1 ++ ": " ++ marshalVal ind p.2 ++ ",\n" ++
          marshalMembers ind (p2 :: ps2)).toList = _
        rw [strToList_append, hab]
        simp [strToList_append]

theorem marshalVal_obj_pair_decomp (ind : String) (ps : List (String × GoValue))
    (kv : String × GoValue) (h : kv ∈ ps) :
    ∃ a b, (marshalVal ind (GoValue.vObj ps)).toList =
      a ++ (jsonQuote kv.1 ++ ": ").toList ++ b := by
  cases ps with
  | nil => exact absurd h (List.not_mem_nil kv)
  | cons p ps2 =>
    obtain ⟨a, b, hab⟩ := marshalMembers_pair_decomp (ind ++ "  ") (p :: ps2) kv h
    refine ⟨("\x7b\n").toList ++ a, b ++ ("\n" ++ ind ++ "\x7d").toList, ?_⟩
    show ("\x7b\n" ++ marshalMembers (ind ++ "  ") (p :: ps2) ++ "\n" ++ ind ++ "\x7d").toList = _
    simp only [strToList_append, hab]
    simp [strToList_append]

/-- C6: for every record, when the raw text parses as JSON the raw panel
contains every line of its two-space-indented re-serialization — in
particular, for a top-level object, the `"key": ` fragment of every
top-level pair — and when it does not parse, the panel contains every line
of the raw text verbatim (for the single-line records ingestion produces,
the whole raw text); the render is total either way. -/
theorem c6_raw_panel (log : ParsedLog) (width height : Int) :
    (∀ v, jsonUnmarshal log.RawLog = some v →
      (∀ l ∈ strLines (marshalIndent v),
        containsSubstr (renderRawLog log width height) l = true) ∧
      (∀ ps, v = GoValue.vObj ps → ∀ kv ∈ ps,
        containsSubstr (renderRawLog log width height) (jsonQuote kv.1 ++ ": ") = true)) ∧
    (jsonUnmarshal log.RawLog = none →
      ∀ l ∈ strLines log.RawLog,
        containsSubstr (renderRawLog log width height) l = true) := by
  have hsplit : ∀ inner : String,
      (headerStyle.render "Raw Log" ++ "\n" ++ inner).toList =
        (headerStyle.render "Raw Log").toList ++ '\n' :: inner.toList := by
    intro inner
    simp [strToList_append]
  constructor
  · intro v hv
    have hrr : renderRawLog log width height =
        (rawLogStyle height).render (headerStyle.render "Raw Log" ++ "\n" ++ marshalIndent v) := by
      simp only [renderRawLog, hv, jsonStringStyle_render]
    constructor
    · intro l hl
      obtain ⟨lc, hlc, rfl⟩ := List.mem_map.mp (by simpa [strLines] using hl)
      rw [hrr]
      apply render_containsSubstr_line
      rw [hsplit, splitLinesC_append_nl]
      exact List.mem_append_right _ hlc
    · intro ps hps kv hkv
      subst hps
      rw [hrr]
      obtain ⟨a, b, hab⟩ := marshalVal_obj_pair_decomp "" ps kv hkv
      apply render_containsSubstr_of_infix _ _ _ (pairFrag_no_nl kv.1)
        ((headerStyle.render "Raw Log").toList ++ '\n' :: a) b
      rw [hsplit, show marshalIndent (GoValue.vObj ps) = marshalVal "" (GoValue.vObj ps) from rfl,
        hab]
      simp
  · intro hv l hl
    have hrr : renderRawLog log width height =
        (rawLogStyle height).render (headerStyle.render "Raw Log" ++ "\n" ++ log.RawLog) := by
      simp only [renderRawLog, hv, jsonStringStyle_render]
    obtain ⟨lc, hlc, rfl⟩ := List.mem_map.mp (by simpa [strLines] using hl)
    rw [hrr]
    apply render_containsSubstr_line
    rw [hsplit, splitLinesC_append_nl]
    exact List.mem_append_right _ hlc

/-- The valid-JSON raw text of the `TestRawLogDisplay` scenario. -/
def testRaw : String := "\x7b\"level\":\"error\",\"message\":\"Connection failed\"\x7d"

/-- The value `testRaw` parses to. -/
def testVal : GoValue :=
  GoValue.vObj [("level", GoValue.vStr "error"), ("message", GoValue.vStr "Connection failed")]

/-- The record carrying `testRaw`. -/
def testLog : ParsedLog :=
  { RawLog := testRaw,
    Fields := [("level", GoValue.vStr "error"), ("message", GoValue.vStr "Connection failed")],
    LineNumber := 1 }

set_option maxRecDepth 8000 in
/-- Witness for C6: the concrete valid-JSON record renders with its
pretty-printed pair lines present. -/
theorem c6_raw_panel_witness :
    jsonUnmarshal testLog.RawLog = some testVal ∧
    containsSubstr (renderRawLog testLog 100 40) "  \"level\": \"error\"," = true ∧
    containsSubstr (renderRawLog testLog 100 40) (jsonQuote "message" ++ ": ") = true := by
  have hparse : jsonUnmarshal testLog.RawLog = some testVal := by rfl
  have h := c6_raw_panel testLog 100 40
  refine ⟨hparse, ?_, ?_⟩
  · exact (h.1 testVal hparse).1 "  \"level\": \"error\"," (by decide)
  · exact (h.1 testVal hparse).2 _ rfl ("message", GoValue.vStr "Connection failed")
      (List.Mem.tail _ (List.Mem.head _))
